import Mathlib

/-!
Verification of the persistence-schema and token-ledger specification.

The repository contains two source files:
* `prisma/schema.prisma` — the relational schema (entities, unique
  constraints, defaults, enums, relation declarations);
* `app/types/html2pdf.d.ts` — an ambient TypeScript declaration for a
  client-side PDF export library.

The schema is embedded twice:
* declaratively, as a description of the models, fields, attributes and
  relation declarations exactly as they appear in `schema.prisma`
  (section `PrismaDecl`), used for claims about the schema text itself
  (timestamps, referential actions, unique attributes, defaults);
* operationally, as a state machine over a database state whose rows
  mirror the schema's models (section `CareerDB`).  The schema declares
  no repository code, so the operations of the data-access layer are
  modelled from the specification (each such definition is marked
  `Modelled from the spec:`), while every constraint they enforce
  (uniqueness, defaults, `@updatedAt` semantics, restrict-on-delete)
  comes from the schema.
-/

namespace CareerDB

/-- Enum `DemandLevel` from `schema.prisma` (HIGH | MEDIUM | LOW). -/
inductive DemandLevel
  | HIGH
  | MEDIUM
  | LOW
deriving DecidableEq, Repr

/-- Enum `MarketOutlook` from `schema.prisma` (POSITIVE | NEUTRAL | NEGATIVE). -/
inductive MarketOutlook
  | POSITIVE
  | NEUTRAL
  | NEGATIVE
deriving DecidableEq, Repr

/-- Enum `PaymentStatus` from `schema.prisma` (PENDING | COMPLETED | FAILED). -/
inductive PaymentStatus
  | PENDING
  | COMPLETED
  | FAILED
deriving DecidableEq, Repr

/-- Model `User` from `schema.prisma`.  Timestamps are a logical clock
(`Nat`); `Json` payloads are opaque strings; `Float` columns are `Rat`
(they are stored, never computed on). -/
structure User where
  id : String
  clerkUserId : String
  email : String
  name : Option String
  imageUrl : Option String
  industry : Option String
  tokens : Int
  createdAt : Nat
  updatedAt : Nat
  bio : Option String
  experience : Option Int
  skills : List String
deriving DecidableEq, Repr

/-- Model `Assessment` from `schema.prisma`. -/
structure Assessment where
  id : String
  userId : String
  quizScore : Rat
  questions : List String
  category : String
  improvementTip : String
  createdAt : Nat
  updatedAt : Nat
deriving DecidableEq, Repr

/-- Model `Resume` from `schema.prisma` (`userId` carries `@unique`). -/
structure Resume where
  id : String
  userId : String
  content : String
  atsScore : Rat
  feedback : String
  createdAt : Nat
  updatedAt : Nat
deriving DecidableEq, Repr

/-- Model `CoverLetter` from `schema.prisma`. -/
structure CoverLetter where
  id : String
  userId : String
  content : String
  jobDescription : Option String
  companyName : String
  jobTitle : String
  createdAt : Nat
  updatedAt : Nat
deriving DecidableEq, Repr

/-- Model `IndustryInsight` from `schema.prisma`.  `lastUpdated` carries
`@default(now())`, `nextUpdate` carries `@updatedAt`. -/
structure IndustryInsight where
  id : String
  industry : String
  salaryRanges : List String
  growthRate : Rat
  demandLevel : DemandLevel
  topSkills : List String
  marketOutlook : MarketOutlook
  keyTrends : List String
  recommendedSkills : List String
  lastUpdated : Nat
  nextUpdate : Nat
deriving DecidableEq, Repr

/-- Model `TokenTransaction` from `schema.prisma` (note: it has
`createdAt` but no `updatedAt` column). -/
structure TokenTransaction where
  id : String
  userId : String
  amount : Int
  description : String
  featureType : Option String
  createdAt : Nat
deriving DecidableEq, Repr

/-- Model `Payment` from `schema.prisma` (`razorpayId` carries `@unique`;
defaults: `currency = "INR"`, `status = PENDING`). -/
structure Payment where
  id : String
  userId : String
  amount : Rat
  currency : String
  razorpayId : String
  status : PaymentStatus
  tokensAdded : Int
  createdAt : Nat
  updatedAt : Nat
deriving DecidableEq, Repr

/-- Model `FeatureCost` from `schema.prisma` (`featureName` carries
`@unique`; the model has no timestamp columns at all). -/
structure FeatureCost where
  id : String
  featureName : String
  tokenCost : Int
  description : Option String
deriving DecidableEq, Repr

/-- The database state: one list of rows per model of `schema.prisma`. -/
structure DB where
  users : List User
  assessments : List Assessment
  resumes : List Resume
  coverLetters : List CoverLetter
  industryInsights : List IndustryInsight
  tokenTransactions : List TokenTransaction
  payments : List Payment
  featureCosts : List FeatureCost
deriving DecidableEq, Repr

/-- The empty database. -/
def dbEmpty : DB :=
  { users := []
    assessments := []
    resumes := []
    coverLetters := []
    industryInsights := []
    tokenTransactions := []
    payments := []
    featureCosts := [] }

/-- Error kinds of the data-access layer, from the specification's error
handling design (ConflictError, NotFoundError, InsufficientBalanceError,
ValidationError). -/
inductive RepoError
  | ConflictError
  | NotFoundError
  | InsufficientBalanceError
  | ValidationError
deriving DecidableEq, Repr

/-- Look a user up by primary key. -/
def findUser (db : DB) (userId : String) : Option User :=
  db.users.find? (fun u => u.id == userId)

/-- Modelled from the spec: `createUser(externalAuthId, email, …)` of the
repository layer, which is absent from the sources.  Fails with
`ConflictError` if the external-auth id or the email already exists
(unique constraints of `schema.prisma`; the primary key is likewise
unique), fails with `NotFoundError` if a supplied industry references no
`IndustryInsight` row, and otherwise inserts the user with
`tokens = 10000` (the schema default) and both timestamps set to the
insertion time. -/
def createUser (db : DB) (id clerkUserId email : String)
    (name imageUrl industry : Option String) (bio : Option String)
    (experience : Option Int) (skills : List String) (now : Nat) :
    Except RepoError DB :=
  if db.users.any (fun u =>
      u.id == id || u.clerkUserId == clerkUserId || u.email == email) then
    .error .ConflictError
  else if industry.any (fun i =>
      !(db.industryInsights.any (fun s => s.industry == i))) then
    .error .NotFoundError
  else
    .ok { db with users :=
      { id := id, clerkUserId := clerkUserId, email := email,
        name := name, imageUrl := imageUrl, industry := industry,
        tokens := 10000, createdAt := now, updatedAt := now,
        bio := bio, experience := experience, skills := skills } :: db.users }

/-- Modelled from the spec: `debitTokens(userId, amount, description,
featureType)` of the repository layer, which is absent from the sources.
Fails with `NotFoundError` if the user does not exist and with
`InsufficientBalanceError` if `amount > currentBalance`; otherwise
atomically decrements the balance and appends one `TokenTransaction`
with `amount = -amount`. -/
def debitTokens (db : DB) (userId : String) (amount : Int)
    (description : String) (featureType : Option String)
    (txId : String) (now : Nat) : Except RepoError DB :=
  match findUser db userId with
  | none => .error .NotFoundError
  | some u =>
    if u.tokens < amount then
      .error .InsufficientBalanceError
    else
      .ok { db with
        users := db.users.map (fun v =>
          if v.id == userId then
            { v with tokens := v.tokens - amount, updatedAt := now }
          else v)
        tokenTransactions :=
          { id := txId, userId := userId, amount := -amount,
            description := description, featureType := featureType,
            createdAt := now } :: db.tokenTransactions }

/-- Modelled from the spec: `creditTokens(userId, amount, description)`
of the repository layer, which is absent from the sources.  Atomically
increments the balance and appends a positive `TokenTransaction`. -/
def creditTokens (db : DB) (userId : String) (amount : Int)
    (description : String) (txId : String) (now : Nat) :
    Except RepoError DB :=
  match findUser db userId with
  | none => .error .NotFoundError
  | some _ =>
    .ok { db with
      users := db.users.map (fun v =>
        if v.id == userId then
          { v with tokens := v.tokens + amount, updatedAt := now }
        else v)
      tokenTransactions :=
        { id := txId, userId := userId, amount := amount,
          description := description, featureType := none,
          createdAt := now } :: db.tokenTransactions }

/-- Modelled from the spec: `recordPayment(userId, gatewayId, amount,
currency, tokensAdded)` of the repository layer, which is absent from
the sources.  Fails with `ConflictError` if the gateway id is already
recorded (`razorpayId @unique` in `schema.prisma`), with `NotFoundError`
if the user does not exist, and otherwise creates the payment with
status `PENDING` and, when no currency is supplied, the schema default
currency `"INR"`. -/
def recordPayment (db : DB) (id userId razorpayId : String) (amount : Rat)
    (currency : Option String) (tokensAdded : Int) (now : Nat) :
    Except RepoError DB :=
  if db.payments.any (fun p => p.razorpayId == razorpayId) then
    .error .ConflictError
  else
    match findUser db userId with
    | none => .error .NotFoundError
    | some _ =>
      .ok { db with payments :=
        { id := id, userId := userId, amount := amount,
          currency := currency.getD "INR", razorpayId := razorpayId,
          status := .PENDING, tokensAdded := tokensAdded,
          createdAt := now, updatedAt := now } :: db.payments }

/-- Modelled from the spec: `settlePayment(gatewayId, finalStatus)` of
the repository layer, which is absent from the sources.  Transitions the
payment's status; on the transition `PENDING → COMPLETED` it atomically
credits the associated user's tokens and appends the corresponding
ledger entry.  Re-delivery for a payment already at `finalStatus` is an
idempotent no-op; any other transition out of a settled state fails with
`ValidationError`. -/
def settlePayment (db : DB) (razorpayId : String)
    (finalStatus : PaymentStatus) (txId : String) (now : Nat) :
    Except RepoError DB :=
  match db.payments.find? (fun p => p.razorpayId == razorpayId) with
  | none => .error .NotFoundError
  | some p =>
    if p.status = .PENDING then
      if finalStatus = .COMPLETED then
        .ok { db with
          payments := db.payments.map (fun q =>
            if q.razorpayId == razorpayId then
              { q with status := .COMPLETED, updatedAt := now }
            else q)
          users := db.users.map (fun v =>
            if v.id == p.userId then
              { v with tokens := v.tokens + p.tokensAdded, updatedAt := now }
            else v)
          tokenTransactions :=
            { id := txId, userId := p.userId, amount := p.tokensAdded,
              description := "Token Purchase", featureType := none,
              createdAt := now } :: db.tokenTransactions }
      else
        .ok { db with payments := db.payments.map (fun q =>
          if q.razorpayId == razorpayId then
            { q with status := finalStatus, updatedAt := now }
          else q) }
    else if p.status = finalStatus then
      .ok db
    else
      .error .ValidationError

/-- Modelled from the spec: resume creation in the repository layer,
which is absent from the sources.  Fails with `NotFoundError` if the
user does not exist and with `ConflictError` if the user already has a
resume (`userId @unique` on model `Resume` in `schema.prisma`). -/
def createResume (db : DB) (id userId content : String) (atsScore : Rat)
    (feedback : String) (now : Nat) : Except RepoError DB :=
  match findUser db userId with
  | none => .error .NotFoundError
  | some _ =>
    if db.resumes.any (fun r => r.userId == userId) then
      .error .ConflictError
    else
      .ok { db with resumes :=
        { id := id, userId := userId, content := content,
          atsScore := atsScore, feedback := feedback,
          createdAt := now, updatedAt := now } :: db.resumes }

/-- Modelled from the spec: assessment creation in the repository layer,
which is absent from the sources.  Requires an existing owner. -/
def createAssessment (db : DB) (id userId : String) (quizScore : Rat)
    (questions : List String) (category improvementTip : String)
    (now : Nat) : Except RepoError DB :=
  match findUser db userId with
  | none => .error .NotFoundError
  | some _ =>
    .ok { db with assessments :=
      { id := id, userId := userId, quizScore := quizScore,
        questions := questions, category := category,
        improvementTip := improvementTip,
        createdAt := now, updatedAt := now } :: db.assessments }

/-- Modelled from the spec: cover-letter creation in the repository
layer, which is absent from the sources.  Requires an existing owner. -/
def createCoverLetter (db : DB) (id userId content : String)
    (jobDescription : Option String) (companyName jobTitle : String)
    (now : Nat) : Except RepoError DB :=
  match findUser db userId with
  | none => .error .NotFoundError
  | some _ =>
    .ok { db with coverLetters :=
      { id := id, userId := userId, content := content,
        jobDescription := jobDescription, companyName := companyName,
        jobTitle := jobTitle, createdAt := now, updatedAt := now }
        :: db.coverLetters }

/-- Modelled from the spec: the create branch of
`upsertIndustryInsight(industryName, …fields)`; the repository layer is
absent from the sources.  Fails with `ConflictError` on a duplicate
industry name (`industry @unique` in `schema.prisma`).  Per the schema,
`lastUpdated` (`@default(now())`) and `nextUpdate` (`@updatedAt`) are
both set to the insertion time. -/
def createIndustryInsight (db : DB) (id industry : String)
    (salaryRanges : List String) (growthRate : Rat)
    (demandLevel : DemandLevel) (topSkills : List String)
    (marketOutlook : MarketOutlook) (keyTrends recommendedSkills : List String)
    (now : Nat) : Except RepoError DB :=
  if db.industryInsights.any (fun s => s.industry == industry) then
    .error .ConflictError
  else
    .ok { db with industryInsights :=
      { id := id, industry := industry, salaryRanges := salaryRanges,
        growthRate := growthRate, demandLevel := demandLevel,
        topSkills := topSkills, marketOutlook := marketOutlook,
        keyTrends := keyTrends, recommendedSkills := recommendedSkills,
        lastUpdated := now, nextUpdate := now } :: db.industryInsights }

/-- Modelled from the spec: the update branch of
`upsertIndustryInsight(industryName, …fields)`; the repository layer is
absent from the sources.  Fails with `NotFoundError` on an unknown
industry.  Per the schema's column attributes, the mutation overwrites
the data columns and refreshes `nextUpdate` (`@updatedAt`), while
`lastUpdated` (`@default(now())`, a pure insert-time default) is left
unchanged. -/
def updateIndustryInsight (db : DB) (industry : String)
    (salaryRanges : List String) (growthRate : Rat)
    (demandLevel : DemandLevel) (topSkills : List String)
    (marketOutlook : MarketOutlook) (keyTrends recommendedSkills : List String)
    (now : Nat) : Except RepoError DB :=
  if db.industryInsights.any (fun s => s.industry == industry) then
    .ok { db with industryInsights := db.industryInsights.map (fun s =>
      if s.industry == industry then
        { s with
          salaryRanges := salaryRanges, growthRate := growthRate,
          demandLevel := demandLevel, topSkills := topSkills,
          marketOutlook := marketOutlook, keyTrends := keyTrends,
          recommendedSkills := recommendedSkills, nextUpdate := now }
      else s) }
  else
    .error .NotFoundError

/-- Modelled from the spec: feature-cost creation backing
`getOrCreateFeatureCost(featureName)`; the repository layer is absent
from the sources.  Fails with `ConflictError` on a duplicate feature
name (`featureName @unique` in `schema.prisma`). -/
def createFeatureCost (db : DB) (id featureName : String)
    (tokenCost : Int) (description : Option String) :
    Except RepoError DB :=
  if db.featureCosts.any (fun c => c.featureName == featureName) then
    .error .ConflictError
  else
    .ok { db with featureCosts :=
      { id := id, featureName := featureName, tokenCost := tokenCost,
        description := description } :: db.featureCosts }

/-- True when some child row (assessment, resume, cover letter, token
transaction or payment) references the user. -/
def hasChildRows (db : DB) (userId : String) : Bool :=
  db.assessments.any (fun a => a.userId == userId) ||
  db.resumes.any (fun r => r.userId == userId) ||
  db.coverLetters.any (fun c => c.userId == userId) ||
  db.tokenTransactions.any (fun t => t.userId == userId) ||
  db.payments.any (fun p => p.userId == userId)

/-- Modelled from the spec: user deletion in the repository layer, which
is absent from the sources.  `schema.prisma` declares no referential
action on any relation, so the store applies the default restricting
action for required relations: deleting a user that still owns child
rows is rejected (surfaced as `ConflictError`) instead of cascading. -/
def deleteUser (db : DB) (userId : String) : Except RepoError DB :=
  match findUser db userId with
  | none => .error .NotFoundError
  | some _ =>
    if hasChildRows db userId then
      .error .ConflictError
    else
      .ok { db with users := db.users.filter (fun u => !(u.id == userId)) }

/-- One repository-layer operation together with its arguments (the
store-generated ids and the call time are arguments of the step). -/
inductive Op
  | createUser (id clerkUserId email : String)
      (name imageUrl industry bio : Option String)
      (experience : Option Int) (skills : List String) (now : Nat)
  | debitTokens (userId : String) (amount : Int) (description : String)
      (featureType : Option String) (txId : String) (now : Nat)
  | creditTokens (userId : String) (amount : Int) (description : String)
      (txId : String) (now : Nat)
  | recordPayment (id userId razorpayId : String) (amount : Rat)
      (currency : Option String) (tokensAdded : Int) (now : Nat)
  | settlePayment (razorpayId : String) (finalStatus : PaymentStatus)
      (txId : String) (now : Nat)
  | createResume (id userId content : String) (atsScore : Rat)
      (feedback : String) (now : Nat)
  | createAssessment (id userId : String) (quizScore : Rat)
      (questions : List String) (category improvementTip : String) (now : Nat)
  | createCoverLetter (id userId content : String)
      (jobDescription : Option String) (companyName jobTitle : String)
      (now : Nat)
  | createIndustryInsight (id industry : String)
      (salaryRanges : List String) (growthRate : Rat)
      (demandLevel : DemandLevel) (topSkills : List String)
      (marketOutlook : MarketOutlook)
      (keyTrends recommendedSkills : List String) (now : Nat)
  | updateIndustryInsight (industry : String)
      (salaryRanges : List String) (growthRate : Rat)
      (demandLevel : DemandLevel) (topSkills : List String)
      (marketOutlook : MarketOutlook)
      (keyTrends recommendedSkills : List String) (now : Nat)
  | createFeatureCost (id featureName : String) (tokenCost : Int)
      (description : Option String)
  | deleteUser (userId : String)

/-- Run one operation against the database. -/
def exec (op : Op) (db : DB) : Except RepoError DB :=
  match op with
  | .createUser id c e n i ind b ex sk now =>
      createUser db id c e n i ind b ex sk now
  | .debitTokens u a d f tx now => debitTokens db u a d f tx now
  | .creditTokens u a d tx now => creditTokens db u a d tx now
  | .recordPayment id u r a c t now => recordPayment db id u r a c t now
  | .settlePayment r s tx now => settlePayment db r s tx now
  | .createResume id u c a f now => createResume db id u c a f now
  | .createAssessment id u q qs c t now =>
      createAssessment db id u q qs c t now
  | .createCoverLetter id u c j cn jt now =>
      createCoverLetter db id u c j cn jt now
  | .createIndustryInsight id ind sr g d ts m kt rs now =>
      createIndustryInsight db id ind sr g d ts m kt rs now
  | .updateIndustryInsight ind sr g d ts m kt rs now =>
      updateIndustryInsight db ind sr g d ts m kt rs now
  | .createFeatureCost id f t d => createFeatureCost db id f t d
  | .deleteUser u => deleteUser db u

/-- Run one operation; a failed operation leaves the state unchanged
(typed failures are surfaced to the caller, the transaction rolls
back). -/
def applyOp (op : Op) (db : DB) : DB :=
  match exec op db with
  | .ok db' => db'
  | .error _ => db

/-- The states reachable from the empty database through repository
operations (so with no out-of-band edits). -/
inductive Reachable : DB → Prop
  | empty : Reachable dbEmpty
  | step (db : DB) (op : Op) : Reachable db → Reachable (applyOp op db)

/-- Concrete scenario: create user `u1`. -/
def wOp1 : Op :=
  .createUser "u1" "clerk1" "u1@mail.test" none none none none none [] 0

/-- State after creating `u1`. -/
def wDb1 : DB := applyOp wOp1 dbEmpty

/-- Concrete scenario: create a second user `u2`. -/
def wOp2 : Op :=
  .createUser "u2" "clerk2" "u2@mail.test" none none none none none [] 1

/-- State with the two users `u1` and `u2`. -/
def wDb2 : DB := applyOp wOp2 wDb1

/-- Concrete scenario: debit 2000 tokens from `u1`. -/
def wOp3 : Op :=
  .debitTokens "u1" 2000 "Generated Cover Letter" (some "cover") "t1" 2

/-- State after the 2000-token debit from `u1`. -/
def wDb3 : DB := applyOp wOp3 wDb2

/-- Concrete scenario: record a pending payment for `u1`. -/
def wOp4 : Op := .recordPayment "p1" "u1" "rzp1" 500 none 300 3

/-- State with a pending payment `rzp1`. -/
def wDb4 : DB := applyOp wOp4 wDb2

/-- Concrete scenario: settle payment `rzp1` to COMPLETED. -/
def wOp5 : Op := .settlePayment "rzp1" .COMPLETED "t2" 4

/-- State after the settlement of `rzp1`. -/
def wDb5 : DB := applyOp wOp5 wDb4

/-- Concrete scenario: create a resume for `u1`. -/
def wOp6 : Op := .createResume "r1" "u1" "resume text" 50 "feedback" 5

/-- State in which `u1` owns a resume and `u2` owns none. -/
def wDb6 : DB := applyOp wOp6 wDb2

/-- Concrete scenario: create the industry insight for `Tech`. -/
def wOp7 : Op :=
  .createIndustryInsight "i1" "Tech" [] 5 .HIGH [] .POSITIVE [] [] 6

/-- State with the `Tech` industry insight. -/
def wDbI1 : DB := applyOp wOp7 dbEmpty

/-- Concrete scenario: refresh the `Tech` industry insight. -/
def wOp8 : Op := .updateIndustryInsight "Tech" [] 6 .LOW [] .NEUTRAL [] [] 7

/-- State after refreshing the `Tech` industry insight. -/
def wDbI2 : DB := applyOp wOp8 wDbI1

/-- The row of user `u1` as first created. -/
def wU1 : User :=
  { id := "u1", clerkUserId := "clerk1", email := "u1@mail.test",
    name := none, imageUrl := none, industry := none, tokens := 10000,
    createdAt := 0, updatedAt := 0, bio := none, experience := none,
    skills := [] }

/-- Sum of the ledger amounts owned by a user: the sum of the `amount`
columns of the `TokenTransaction` rows whose `userId` is `uid`. -/
def ledgerSum (ts : List TokenTransaction) (uid : String) : Int :=
  ((ts.filter (fun t => t.userId == uid)).map (fun t => t.amount)).sum

/-- The primary keys of the user rows. -/
def userIds (db : DB) : List String := db.users.map User.id

/-- The inductive invariant of the repository layer: the unique
constraints declared in `schema.prisma` hold as no-duplicate conditions
on the corresponding columns, every child row references an existing
user (referential integrity), and every user's balance reconciles with
the ledger (10000 starting grant plus the signed transaction sum). -/
structure Inv (db : DB) : Prop where
  idsNodup : (db.users.map User.id).Nodup
  clerkNodup : (db.users.map User.clerkUserId).Nodup
  emailNodup : (db.users.map User.email).Nodup
  industriesNodup : (db.industryInsights.map IndustryInsight.industry).Nodup
  razorpayNodup : (db.payments.map Payment.razorpayId).Nodup
  featureNamesNodup : (db.featureCosts.map FeatureCost.featureName).Nodup
  resumeOwnersNodup : (db.resumes.map Resume.userId).Nodup
  assessmentOwners : ∀ a ∈ db.assessments, a.userId ∈ userIds db
  resumeOwners : ∀ r ∈ db.resumes, r.userId ∈ userIds db
  coverLetterOwners : ∀ c ∈ db.coverLetters, c.userId ∈ userIds db
  ledgerOwners : ∀ t ∈ db.tokenTransactions, t.userId ∈ userIds db
  paymentOwners : ∀ p ∈ db.payments, p.userId ∈ userIds db
  reconcile : ∀ u ∈ db.users,
    u.tokens = 10000 + ledgerSum db.tokenTransactions u.id

end CareerDB

namespace PrismaDecl

/-- A column attribute as written in `schema.prisma`. -/
inductive PAttr
  | pid
  | punique
  | pdefaultUuid
  | pdefaultCuid
  | pdefaultNow
  | pupdatedAt
  | pdefaultInt (n : Int)
  | pdefaultStr (s : String)
  | pdefaultEnumVal (s : String)
  | pdbText
deriving DecidableEq, Repr

/-- A scalar or enum column of a model in `schema.prisma`. -/
structure PField where
  fname : String
  ftype : String
  optional : Bool
  isList : Bool
  attrs : List PAttr
deriving DecidableEq, Repr

/-- A relation field of a model in `schema.prisma`: its `@relation`
arguments and (when written, which is never in this schema) the
referential actions. -/
structure PRelationField where
  fname : String
  target : String
  optional : Bool
  isList : Bool
  relFields : List String
  relReferences : List String
  onDelete : Option String
  onUpdate : Option String
deriving DecidableEq, Repr

/-- A model block of `schema.prisma`. -/
structure PModel where
  mname : String
  fields : List PField
  relationFields : List PRelationField
  indexes : List (List String)
deriving DecidableEq, Repr

/-- `model User` of `schema.prisma`. -/
def userModel : PModel :=
  { mname := "User"
    fields := [
      ⟨"id", "String", false, false, [.pid, .pdefaultUuid]⟩,
      ⟨"clerkUserId", "String", false, false, [.punique]⟩,
      ⟨"email", "String", false, false, [.punique]⟩,
      ⟨"name", "String", true, false, []⟩,
      ⟨"imageUrl", "String", true, false, []⟩,
      ⟨"industry", "String", true, false, []⟩,
      ⟨"tokens", "Int", false, false, [.pdefaultInt 10000]⟩,
      ⟨"createdAt", "DateTime", false, false, [.pdefaultNow]⟩,
      ⟨"updatedAt", "DateTime", false, false, [.pupdatedAt]⟩,
      ⟨"bio", "String", true, false, []⟩,
      ⟨"experience", "Int", true, false, []⟩,
      ⟨"skills", "String", false, true, []⟩]
    relationFields := [
      ⟨"industryInsight", "IndustryInsight", true, false,
        ["industry"], ["industry"], none, none⟩,
      ⟨"assessments", "Assessment", false, true, [], [], none, none⟩,
      ⟨"resume", "Resume", true, false, [], [], none, none⟩,
      ⟨"coverLetter", "CoverLetter", false, true, [], [], none, none⟩,
      ⟨"tokenTransactions", "TokenTransaction", false, true, [], [], none, none⟩,
      ⟨"payments", "Payment", false, true, [], [], none, none⟩]
    indexes := [] }

/-- `model Assessment` of `schema.prisma`. -/
def assessmentModel : PModel :=
  { mname := "Assessment"
    fields := [
      ⟨"id", "String", false, false, [.pid, .pdefaultCuid]⟩,
      ⟨"userId", "String", false, false, []⟩,
      ⟨"quizScore", "Float", false, false, []⟩,
      ⟨"questions", "Json", false, true, []⟩,
      ⟨"category", "String", false, false, []⟩,
      ⟨"improvementTip", "String", false, false, []⟩,
      ⟨"createdAt", "DateTime", false, false, [.pdefaultNow]⟩,
      ⟨"updatedAt", "DateTime", false, false, [.pupdatedAt]⟩]
    relationFields := [
      ⟨"user", "User", false, false, ["userId"], ["id"], none, none⟩]
    indexes := [["userId"]] }

/-- `model Resume` of `schema.prisma`. -/
def resumeModel : PModel :=
  { mname := "Resume"
    fields := [
      ⟨"id", "String", false, false, [.pid, .pdefaultCuid]⟩,
      ⟨"userId", "String", false, false, [.punique]⟩,
      ⟨"content", "String", false, false, [.pdbText]⟩,
      ⟨"atsScore", "Float", false, false, []⟩,
      ⟨"feedback", "String", false, false, []⟩,
      ⟨"createdAt", "DateTime", false, false, [.pdefaultNow]⟩,
      ⟨"updatedAt", "DateTime", false, false, [.pupdatedAt]⟩]
    relationFields := [
      ⟨"user", "User", false, false, ["userId"], ["id"], none, none⟩]
    indexes := [] }

/-- `model CoverLetter` of `schema.prisma`. -/
def coverLetterModel : PModel :=
  { mname := "CoverLetter"
    fields := [
      ⟨"id", "String", false, false, [.pid, .pdefaultCuid]⟩,
      ⟨"userId", "String", false, false, []⟩,
      ⟨"content", "String", false, false, []⟩,
      ⟨"jobDescription", "String", true, false, []⟩,
      ⟨"companyName", "String", false, false, []⟩,
      ⟨"jobTitle", "String", false, false, []⟩,
      ⟨"createdAt", "DateTime", false, false, [.pdefaultNow]⟩,
      ⟨"updatedAt", "DateTime", false, false, [.pupdatedAt]⟩]
    relationFields := [
      ⟨"user", "User", false, false, ["userId"], ["id"], none, none⟩]
    indexes := [["userId"]] }

/-- `model IndustryInsight` of `schema.prisma`. -/
def industryInsightModel : PModel :=
  { mname := "IndustryInsight"
    fields := [
      ⟨"id", "String", false, false, [.pid, .pdefaultCuid]⟩,
      ⟨"industry", "String", false, false, [.punique]⟩,
      ⟨"salaryRanges", "Json", false, true, []⟩,
      ⟨"growthRate", "Float", false, false, []⟩,
      ⟨"demandLevel", "DemandLevel", false, false, []⟩,
      ⟨"topSkills", "String", false, true, []⟩,
      ⟨"marketOutlook", "MarketOutlook", false, false, []⟩,
      ⟨"keyTrends", "String", false, true, []⟩,
      ⟨"recommendedSkills", "String", false, true, []⟩,
      ⟨"lastUpdated", "DateTime", false, false, [.pdefaultNow]⟩,
      ⟨"nextUpdate", "DateTime", false, false, [.pupdatedAt]⟩]
    relationFields := [
      ⟨"users", "User", false, true, [], [], none, none⟩]
    indexes := [["industry"]] }

/-- `model TokenTransaction` of `schema.prisma`. -/
def tokenTransactionModel : PModel :=
  { mname := "TokenTransaction"
    fields := [
      ⟨"id", "String", false, false, [.pid, .pdefaultCuid]⟩,
      ⟨"userId", "String", false, false, []⟩,
      ⟨"amount", "Int", false, false, []⟩,
      ⟨"description", "String", false, false, []⟩,
      ⟨"featureType", "String", true, false, []⟩,
      ⟨"createdAt", "DateTime", false, false, [.pdefaultNow]⟩]
    relationFields := [
      ⟨"user", "User", false, false, ["userId"], ["id"], none, none⟩]
    indexes := [["userId"]] }

/-- `model Payment` of `schema.prisma`. -/
def paymentModel : PModel :=
  { mname := "Payment"
    fields := [
      ⟨"id", "String", false, false, [.pid, .pdefaultCuid]⟩,
      ⟨"userId", "String", false, false, []⟩,
      ⟨"amount", "Float", false, false, []⟩,
      ⟨"currency", "String", false, false, [.pdefaultStr "INR"]⟩,
      ⟨"razorpayId", "String", false, false, [.punique]⟩,
      ⟨"status", "PaymentStatus", false, false, [.pdefaultEnumVal "PENDING"]⟩,
      ⟨"tokensAdded", "Int", false, false, []⟩,
      ⟨"createdAt", "DateTime", false, false, [.pdefaultNow]⟩,
      ⟨"updatedAt", "DateTime", false, false, [.pupdatedAt]⟩]
    relationFields := [
      ⟨"user", "User", false, false, ["userId"], ["id"], none, none⟩]
    indexes := [["userId"]] }

/-- `model FeatureCost` of `schema.prisma`. -/
def featureCostModel : PModel :=
  { mname := "FeatureCost"
    fields := [
      ⟨"id", "String", false, false, [.pid, .pdefaultCuid]⟩,
      ⟨"featureName", "String", false, false, [.punique]⟩,
      ⟨"tokenCost", "Int", false, false, []⟩,
      ⟨"description", "String", true, false, []⟩]
    relationFields := []
    indexes := [] }

/-- All model blocks of `schema.prisma`, in source order. -/
def prismaSchema : List PModel :=
  [userModel, assessmentModel, resumeModel, coverLetterModel,
   industryInsightModel, tokenTransactionModel, paymentModel,
   featureCostModel]

/-- The model has a `DateTime` column whose value defaults to the
insertion time (`@default(now())`). -/
def hasCreatedAtColumn (m : PModel) : Bool :=
  m.fields.any (fun f => f.ftype == "DateTime" && f.attrs.contains .pdefaultNow)

/-- The model has a `DateTime` column refreshed on every mutation
(`@updatedAt`). -/
def hasUpdatedAtColumn (m : PModel) : Bool :=
  m.fields.any (fun f => f.ftype == "DateTime" && f.attrs.contains .pupdatedAt)

end PrismaDecl

namespace Html2PdfDecl

/-- A TypeScript type as it appears in `app/types/html2pdf.d.ts`: either
a named/inline type text, or an inline object type given by its member
names and member types. -/
inductive TSType
  | named (s : String)
  | obj (members : List (String × String))
deriving DecidableEq, Repr

/-- A property of a TypeScript interface. -/
structure TSProp where
  pname : String
  ptype : TSType
  optional : Bool
deriving DecidableEq, Repr

/-- A method of a TypeScript interface: parameter (name, type) pairs and
the return type. -/
structure TSMethod where
  mname : String
  params : List (String × String)
  ret : String
deriving DecidableEq, Repr

/-- `interface Options` of `app/types/html2pdf.d.ts`. -/
def optionsInterfaceProps : List TSProp :=
  [⟨"margin", .named "number | [number, number]", true⟩,
   ⟨"filename", .named "string", true⟩,
   ⟨"image", .obj [("type", "string"), ("quality", "number")], true⟩,
   ⟨"html2canvas", .obj [("scale", "number")], true⟩,
   ⟨"jsPDF", .obj [("unit", "string"), ("format", "string"),
     ("orientation", "string")], true⟩]

/-- `interface Html2Pdf` of `app/types/html2pdf.d.ts`. -/
def html2pdfInterfaceMethods : List TSMethod :=
  [⟨"set", [("options", "Options")], "Html2Pdf"⟩,
   ⟨"from", [("element", "HTMLElement")], "Html2Pdf"⟩,
   ⟨"save", [], "Promise<void>"⟩]

/-- `function html2pdf(): Html2Pdf`, the module's exported entry of
`app/types/html2pdf.d.ts`. -/
def html2pdfModuleFn : TSMethod := ⟨"html2pdf", [], "Html2Pdf"⟩

/-- The configuration interface has a property of the given name. -/
def optionsHasProp (n : String) : Bool :=
  optionsInterfaceProps.any (fun p => p.pname == n)

/-- The configuration interface has an inline-object property of the
given name with the given member. -/
def optionsObjHasMember (n member : String) : Bool :=
  optionsInterfaceProps.any (fun p =>
    p.pname == n &&
    match p.ptype with
    | .obj ms => ms.any (fun q => q.1 == member)
    | .named _ => false)

end Html2PdfDecl

namespace CareerDB

theorem ledgerSum_cons (t : TokenTransaction) (ts : List TokenTransaction)
    (uid : String) :
    ledgerSum (t :: ts) uid =
      (if t.userId = uid then t.amount else 0) + ledgerSum ts uid := by
  simp only [ledgerSum, List.filter_cons]
  by_cases h : t.userId = uid <;> simp [h]

theorem ledgerSum_eq_zero {ts : List TokenTransaction} {uid : String}
    (h : ∀ t ∈ ts, t.userId ≠ uid) : ledgerSum ts uid = 0 := by
  induction ts with
  | nil => rfl
  | cons t ts ih =>
    rw [ledgerSum_cons, if_neg (h t (List.mem_cons_self t ts))]
    simpa using ih (fun s hs => h s (List.mem_cons_of_mem t hs))

theorem map_map_proj {α β : Type} (l : List α) (f : α → α) (g : α → β)
    (h : ∀ a, g (f a) = g a) : (l.map f).map g = l.map g := by
  rw [List.map_map]
  exact List.map_congr_left (fun a _ => h a)

theorem find?_map_comm {α : Type} (l : List α) (f : α → α) (p : α → Bool)
    (h : ∀ a, p (f a) = p a) : (l.map f).find? p = (l.find? p).map f := by
  induction l with
  | nil => simp
  | cons x xs ih =>
    simp only [List.map_cons, List.find?]
    rw [h x]
    cases hx : p x <;> simp [ih]

theorem inv_empty : Inv dbEmpty := by
  constructor <;> simp [dbEmpty, userIds]

theorem inv_createUser {db db' : DB} {id c e : String}
    {n i ind b : Option String} {ex : Option Int} {sk : List String}
    {now : Nat}
    (h : createUser db id c e n i ind b ex sk now = .ok db')
    (hinv : Inv db) : Inv db' := by
  unfold createUser at h
  split at h
  · exact Except.noConfusion h
  next hdup =>
    split at h
    · exact Except.noConfusion h
    injection h with h
    subst h
    simp only [List.any_eq_true, not_exists, not_and, Bool.or_eq_true,
      beq_iff_eq, not_or] at hdup
    have hdup' : ∀ u ∈ db.users, u.id ≠ id ∧ u.clerkUserId ≠ c ∧ u.email ≠ e := by
      intro u hu
      have h3 := hdup u hu
      simp only [Bool.or_eq_true, beq_iff_eq] at h3
      tauto
    have hidfree : id ∉ db.users.map User.id := by
      simp only [List.mem_map, not_exists, not_and]
      intro u hu
      exact (hdup' u hu).1
    constructor
    case idsNodup =>
      simp only [List.map_cons, List.nodup_cons]
      exact ⟨hidfree, hinv.idsNodup⟩
    case clerkNodup =>
      simp only [List.map_cons, List.nodup_cons]
      refine ⟨?_, hinv.clerkNodup⟩
      simp only [List.mem_map, not_exists, not_and]
      intro u hu
      exact (hdup' u hu).2.1
    case emailNodup =>
      simp only [List.map_cons, List.nodup_cons]
      refine ⟨?_, hinv.emailNodup⟩
      simp only [List.mem_map, not_exists, not_and]
      intro u hu
      exact (hdup' u hu).2.2
    case industriesNodup => exact hinv.industriesNodup
    case razorpayNodup => exact hinv.razorpayNodup
    case featureNamesNodup => exact hinv.featureNamesNodup
    case resumeOwnersNodup => exact hinv.resumeOwnersNodup
    case assessmentOwners =>
      intro a ha
      exact List.mem_cons_of_mem _ (hinv.assessmentOwners a ha)
    case resumeOwners =>
      intro r hr
      exact List.mem_cons_of_mem _ (hinv.resumeOwners r hr)
    case coverLetterOwners =>
      intro cl hc
      exact List.mem_cons_of_mem _ (hinv.coverLetterOwners cl hc)
    case ledgerOwners =>
      intro t ht
      exact List.mem_cons_of_mem _ (hinv.ledgerOwners t ht)
    case paymentOwners =>
      intro p hp
      exact List.mem_cons_of_mem _ (hinv.paymentOwners p hp)
    case reconcile =>
      intro u hu
      rcases List.mem_cons.mp hu with rfl | hmem
      · have hzero : ledgerSum db.tokenTransactions id = 0 := by
          apply ledgerSum_eq_zero
          intro t ht heq
          exact hidfree (heq ▸ hinv.ledgerOwners t ht)
        simpa using hzero
      · exact hinv.reconcile u hmem

/-- Core preservation lemma for balance mutations: updating one user's
balance by `delta` while appending the matching ledger row preserves the
invariant. -/
theorem inv_creditLike {db : DB} {uid : String} (delta : Int)
    {txe : TokenTransaction} (now : Nat) {f : User → User}
    (hmem : uid ∈ userIds db)
    (htx_uid : txe.userId = uid) (htx_amt : txe.amount = delta)
    (hf : ∀ v, f v = if v.id = uid then
      { v with tokens := v.tokens + delta, updatedAt := now } else v)
    (hinv : Inv db) :
    Inv { db with
      users := db.users.map f
      tokenTransactions := txe :: db.tokenTransactions } := by
  have hfid : ∀ v, (f v).id = v.id := by
    intro v
    rw [hf]
    split <;> rfl
  have hfclerk : ∀ v, (f v).clerkUserId = v.clerkUserId := by
    intro v
    rw [hf]
    split <;> rfl
  have hfemail : ∀ v, (f v).email = v.email := by
    intro v
    rw [hf]
    split <;> rfl
  have hids : (db.users.map f).map User.id = db.users.map User.id :=
    map_map_proj _ _ _ hfid
  constructor
  case idsNodup => rw [hids]; exact hinv.idsNodup
  case clerkNodup =>
    rw [map_map_proj _ _ _ hfclerk]; exact hinv.clerkNodup
  case emailNodup =>
    rw [map_map_proj _ _ _ hfemail]; exact hinv.emailNodup
  case industriesNodup => exact hinv.industriesNodup
  case razorpayNodup => exact hinv.razorpayNodup
  case featureNamesNodup => exact hinv.featureNamesNodup
  case resumeOwnersNodup => exact hinv.resumeOwnersNodup
  case assessmentOwners =>
    intro a ha
    show a.userId ∈ (db.users.map f).map User.id
    rw [hids]
    exact hinv.assessmentOwners a ha
  case resumeOwners =>
    intro r hr
    show r.userId ∈ (db.users.map f).map User.id
    rw [hids]
    exact hinv.resumeOwners r hr
  case coverLetterOwners =>
    intro c hc
    show c.userId ∈ (db.users.map f).map User.id
    rw [hids]
    exact hinv.coverLetterOwners c hc
  case ledgerOwners =>
    intro t ht
    show t.userId ∈ (db.users.map f).map User.id
    rw [hids]
    rcases List.mem_cons.mp ht with rfl | hmem'
    · rw [htx_uid]; exact hmem
    · exact hinv.ledgerOwners t hmem'
  case paymentOwners =>
    intro p hp
    show p.userId ∈ (db.users.map f).map User.id
    rw [hids]
    exact hinv.paymentOwners p hp
  case reconcile =>
    intro u' hu'
    rcases List.mem_map.mp hu' with ⟨v, hv, rfl⟩
    have hrec := hinv.reconcile v hv
    rw [hf]
    by_cases hcase : v.id = uid
    · rw [if_pos hcase]
      show v.tokens + delta = 10000 + ledgerSum (txe :: db.tokenTransactions) v.id
      rw [ledgerSum_cons, if_pos (htx_uid.trans hcase.symm), htx_amt, hrec]
      ring
    · rw [if_neg hcase]
      show v.tokens = 10000 + ledgerSum (txe :: db.tokenTransactions) v.id
      rw [ledgerSum_cons, if_neg (by rw [htx_uid]; exact fun hh => hcase hh.symm)]
      simpa using hrec

/-- Mapping the payment rows with a function preserving `razorpayId` and
`userId` preserves the invariant. -/
theorem inv_paymentsMap {db : DB} {g : Payment → Payment}
    (hg_rzp : ∀ q, (g q).razorpayId = q.razorpayId)
    (hg_uid : ∀ q, (g q).userId = q.userId)
    (hinv : Inv db) : Inv { db with payments := db.payments.map g } := by
  constructor
  case idsNodup => exact hinv.idsNodup
  case clerkNodup => exact hinv.clerkNodup
  case emailNodup => exact hinv.emailNodup
  case industriesNodup => exact hinv.industriesNodup
  case razorpayNodup =>
    rw [map_map_proj _ _ _ hg_rzp]; exact hinv.razorpayNodup
  case featureNamesNodup => exact hinv.featureNamesNodup
  case resumeOwnersNodup => exact hinv.resumeOwnersNodup
  case assessmentOwners => exact hinv.assessmentOwners
  case resumeOwners => exact hinv.resumeOwners
  case coverLetterOwners => exact hinv.coverLetterOwners
  case ledgerOwners => exact hinv.ledgerOwners
  case paymentOwners =>
    intro p hp
    rcases List.mem_map.mp hp with ⟨q, hq, rfl⟩
    rw [hg_uid]
    exact hinv.paymentOwners q hq
  case reconcile => exact hinv.reconcile

theorem userId_mem_of_findUser {db : DB} {uid : String} {u : User}
    (h : findUser db uid = some u) : u ∈ db.users ∧ u.id = uid := by
  refine ⟨List.mem_of_find?_eq_some h, ?_⟩
  have := List.find?_some h
  simpa using this

theorem inv_debitTokens {db db' : DB} {uid : String} {amount : Int}
    {descr : String} {ft : Option String} {txId : String} {now : Nat}
    (h : debitTokens db uid amount descr ft txId now = .ok db')
    (hinv : Inv db) : Inv db' := by
  unfold debitTokens at h
  split at h
  · exact Except.noConfusion h
  next u hfind =>
    split at h
    · exact Except.noConfusion h
    injection h with h
    subst h
    obtain ⟨hu, huid⟩ := userId_mem_of_findUser hfind
    have hmem : uid ∈ userIds db := List.mem_map.mpr ⟨u, hu, huid⟩
    refine inv_creditLike (-amount) now hmem rfl rfl ?_ hinv
    intro v
    by_cases hcase : v.id = uid <;> simp [hcase, sub_eq_add_neg]

theorem inv_creditTokens {db db' : DB} {uid : String} {amount : Int}
    {descr : String} {txId : String} {now : Nat}
    (h : creditTokens db uid amount descr txId now = .ok db')
    (hinv : Inv db) : Inv db' := by
  unfold creditTokens at h
  split at h
  · exact Except.noConfusion h
  next u hfind =>
    injection h with h
    subst h
    obtain ⟨hu, huid⟩ := userId_mem_of_findUser hfind
    have hmem : uid ∈ userIds db := List.mem_map.mpr ⟨u, hu, huid⟩
    refine inv_creditLike amount now hmem rfl rfl ?_ hinv
    intro v
    by_cases hcase : v.id = uid <;> simp [hcase]

theorem inv_settlePayment {db db' : DB} {rid : String}
    {fs : PaymentStatus} {txId : String} {now : Nat}
    (h : settlePayment db rid fs txId now = .ok db')
    (hinv : Inv db) : Inv db' := by
  unfold settlePayment at h
  split at h
  · exact Except.noConfusion h
  next p hfind =>
    have hp : p ∈ db.payments := List.mem_of_find?_eq_some hfind
    have hpmem : p.userId ∈ userIds db := hinv.paymentOwners p hp
    split at h
    · split at h
      · injection h with h
        subst h
        refine inv_paymentsMap ?_ ?_
          (inv_creditLike p.tokensAdded now hpmem rfl rfl ?_ hinv)
        · intro q
          split <;> rfl
        · intro q
          split <;> rfl
        · intro v
          by_cases hcase : v.id = p.userId <;> simp [hcase]
      · injection h with h
        subst h
        refine inv_paymentsMap ?_ ?_ hinv
        · intro q
          split <;> rfl
        · intro q
          split <;> rfl
    · split at h
      · injection h with h
        subst h
        exact hinv
      · exact Except.noConfusion h

theorem inv_recordPayment {db db' : DB} {id uid rid : String} {amount : Rat}
    {currency : Option String} {tokensAdded : Int} {now : Nat}
    (h : recordPayment db id uid rid amount currency tokensAdded now = .ok db')
    (hinv : Inv db) : Inv db' := by
  unfold recordPayment at h
  split at h
  · exact Except.noConfusion h
  next hdup =>
    split at h
    · exact Except.noConfusion h
    next u hfind =>
      injection h with h
      subst h
      obtain ⟨hu, huid⟩ := userId_mem_of_findUser hfind
      simp only [List.any_eq_true, not_exists, not_and, beq_iff_eq] at hdup
      constructor
      case idsNodup => exact hinv.idsNodup
      case clerkNodup => exact hinv.clerkNodup
      case emailNodup => exact hinv.emailNodup
      case industriesNodup => exact hinv.industriesNodup
      case razorpayNodup =>
        simp only [List.map_cons, List.nodup_cons]
        refine ⟨?_, hinv.razorpayNodup⟩
        simp only [List.mem_map, not_exists, not_and]
        intro q hq heq
        exact hdup q hq heq
      case featureNamesNodup => exact hinv.featureNamesNodup
      case resumeOwnersNodup => exact hinv.resumeOwnersNodup
      case assessmentOwners => exact hinv.assessmentOwners
      case resumeOwners => exact hinv.resumeOwners
      case coverLetterOwners => exact hinv.coverLetterOwners
      case ledgerOwners => exact hinv.ledgerOwners
      case paymentOwners =>
        intro p hp
        rcases List.mem_cons.mp hp with rfl | hmem
        · exact List.mem_map.mpr ⟨u, hu, huid⟩
        · exact hinv.paymentOwners p hmem
      case reconcile => exact hinv.reconcile

theorem inv_createResume {db db' : DB} {id uid content : String}
    {atsScore : Rat} {feedback : String} {now : Nat}
    (h : createResume db id uid content atsScore feedback now = .ok db')
    (hinv : Inv db) : Inv db' := by
  unfold createResume at h
  split at h
  · exact Except.noConfusion h
  next u hfind =>
    split at h
    · exact Except.noConfusion h
    next hdup =>
      injection h with h
      subst h
      obtain ⟨hu, huid⟩ := userId_mem_of_findUser hfind
      simp only [List.any_eq_true, not_exists, not_and, beq_iff_eq] at hdup
      constructor
      case idsNodup => exact hinv.idsNodup
      case clerkNodup => exact hinv.clerkNodup
      case emailNodup => exact hinv.emailNodup
      case industriesNodup => exact hinv.industriesNodup
      case razorpayNodup => exact hinv.razorpayNodup
      case featureNamesNodup => exact hinv.featureNamesNodup
      case resumeOwnersNodup =>
        simp only [List.map_cons, List.nodup_cons]
        refine ⟨?_, hinv.resumeOwnersNodup⟩
        simp only [List.mem_map, not_exists, not_and]
        intro r hr heq
        exact hdup r hr heq
      case assessmentOwners => exact hinv.assessmentOwners
      case resumeOwners =>
        intro r hr
        rcases List.mem_cons.mp hr with rfl | hmem
        · exact List.mem_map.mpr ⟨u, hu, huid⟩
        · exact hinv.resumeOwners r hmem
      case coverLetterOwners => exact hinv.coverLetterOwners
      case ledgerOwners => exact hinv.ledgerOwners
      case paymentOwners => exact hinv.paymentOwners
      case reconcile => exact hinv.reconcile

theorem inv_createAssessment {db db' : DB} {id uid : String}
    {quizScore : Rat} {questions : List String}
    {category improvementTip : String} {now : Nat}
    (h : createAssessment db id uid quizScore questions category
      improvementTip now = .ok db')
    (hinv : Inv db) : Inv db' := by
  unfold createAssessment at h
  split at h
  · exact Except.noConfusion h
  next u hfind =>
    injection h with h
    subst h
    obtain ⟨hu, huid⟩ := userId_mem_of_findUser hfind
    constructor
    case idsNodup => exact hinv.idsNodup
    case clerkNodup => exact hinv.clerkNodup
    case emailNodup => exact hinv.emailNodup
    case industriesNodup => exact hinv.industriesNodup
    case razorpayNodup => exact hinv.razorpayNodup
    case featureNamesNodup => exact hinv.featureNamesNodup
    case resumeOwnersNodup => exact hinv.resumeOwnersNodup
    case assessmentOwners =>
      intro a ha
      rcases List.mem_cons.mp ha with rfl | hmem
      · exact List.mem_map.mpr ⟨u, hu, huid⟩
      · exact hinv.assessmentOwners a hmem
    case resumeOwners => exact hinv.resumeOwners
    case coverLetterOwners => exact hinv.coverLetterOwners
    case ledgerOwners => exact hinv.ledgerOwners
    case paymentOwners => exact hinv.paymentOwners
    case reconcile => exact hinv.reconcile

theorem inv_createCoverLetter {db db' : DB} {id uid content : String}
    {jobDescription : Option String} {companyName jobTitle : String}
    {now : Nat}
    (h : createCoverLetter db id uid content jobDescription companyName
      jobTitle now = .ok db')
    (hinv : Inv db) : Inv db' := by
  unfold createCoverLetter at h
  split at h
  · exact Except.noConfusion h
  next u hfind =>
    injection h with h
    subst h
    obtain ⟨hu, huid⟩ := userId_mem_of_findUser hfind
    constructor
    case idsNodup => exact hinv.idsNodup
    case clerkNodup => exact hinv.clerkNodup
    case emailNodup => exact hinv.emailNodup
    case industriesNodup => exact hinv.industriesNodup
    case razorpayNodup => exact hinv.razorpayNodup
    case featureNamesNodup => exact hinv.featureNamesNodup
    case resumeOwnersNodup => exact hinv.resumeOwnersNodup
    case assessmentOwners => exact hinv.assessmentOwners
    case resumeOwners => exact hinv.resumeOwners
    case coverLetterOwners =>
      intro c hc
      rcases List.mem_cons.mp hc with rfl | hmem
      · exact List.mem_map.mpr ⟨u, hu, huid⟩
      · exact hinv.coverLetterOwners c hmem
    case ledgerOwners => exact hinv.ledgerOwners
    case paymentOwners => exact hinv.paymentOwners
    case reconcile => exact hinv.reconcile

theorem inv_createIndustryInsight {db db' : DB} {id industry : String}
    {salaryRanges : List String} {growthRate : Rat}
    {demandLevel : DemandLevel} {topSkills : List String}
    {marketOutlook : MarketOutlook}
    {keyTrends recommendedSkills : List String} {now : Nat}
    (h : createIndustryInsight db id industry salaryRanges growthRate
      demandLevel topSkills marketOutlook keyTrends recommendedSkills now
      = .ok db')
    (hinv : Inv db) : Inv db' := by
  unfold createIndustryInsight at h
  split at h
  · exact Except.noConfusion h
  next hdup =>
    injection h with h
    subst h
    simp only [List.any_eq_true, not_exists, not_and, beq_iff_eq] at hdup
    constructor
    case idsNodup => exact hinv.idsNodup
    case clerkNodup => exact hinv.clerkNodup
    case emailNodup => exact hinv.emailNodup
    case industriesNodup =>
      simp only [List.map_cons, List.nodup_cons]
      refine ⟨?_, hinv.industriesNodup⟩
      simp only [List.mem_map, not_exists, not_and]
      intro s hs heq
      exact hdup s hs heq
    case razorpayNodup => exact hinv.razorpayNodup
    case featureNamesNodup => exact hinv.featureNamesNodup
    case resumeOwnersNodup => exact hinv.resumeOwnersNodup
    case assessmentOwners => exact hinv.assessmentOwners
    case resumeOwners => exact hinv.resumeOwners
    case coverLetterOwners => exact hinv.coverLetterOwners
    case ledgerOwners => exact hinv.ledgerOwners
    case paymentOwners => exact hinv.paymentOwners
    case reconcile => exact hinv.reconcile

theorem inv_updateIndustryInsight {db db' : DB} {industry : String}
    {salaryRanges : List String} {growthRate : Rat}
    {demandLevel : DemandLevel} {topSkills : List String}
    {marketOutlook : MarketOutlook}
    {keyTrends recommendedSkills : List String} {now : Nat}
    (h : updateIndustryInsight db industry salaryRanges growthRate
      demandLevel topSkills marketOutlook keyTrends recommendedSkills now
      = .ok db')
    (hinv : Inv db) : Inv db' := by
  unfold updateIndustryInsight at h
  split at h
  · injection h with h
    subst h
    constructor
    case idsNodup => exact hinv.idsNodup
    case clerkNodup => exact hinv.clerkNodup
    case emailNodup => exact hinv.emailNodup
    case industriesNodup =>
      rw [map_map_proj]
      · exact hinv.industriesNodup
      · intro s
        split <;> rfl
    case razorpayNodup => exact hinv.razorpayNodup
    case featureNamesNodup => exact hinv.featureNamesNodup
    case resumeOwnersNodup => exact hinv.resumeOwnersNodup
    case assessmentOwners => exact hinv.assessmentOwners
    case resumeOwners => exact hinv.resumeOwners
    case coverLetterOwners => exact hinv.coverLetterOwners
    case ledgerOwners => exact hinv.ledgerOwners
    case paymentOwners => exact hinv.paymentOwners
    case reconcile => exact hinv.reconcile
  · exact Except.noConfusion h

theorem inv_createFeatureCost {db db' : DB} {id featureName : String}
    {tokenCost : Int} {description : Option String}
    (h : createFeatureCost db id featureName tokenCost description = .ok db')
    (hinv : Inv db) : Inv db' := by
  unfold createFeatureCost at h
  split at h
  · exact Except.noConfusion h
  next hdup =>
    injection h with h
    subst h
    simp only [List.any_eq_true, not_exists, not_and, beq_iff_eq] at hdup
    constructor
    case idsNodup => exact hinv.idsNodup
    case clerkNodup => exact hinv.clerkNodup
    case emailNodup => exact hinv.emailNodup
    case industriesNodup => exact hinv.industriesNodup
    case razorpayNodup => exact hinv.razorpayNodup
    case featureNamesNodup =>
      simp only [List.map_cons, List.nodup_cons]
      refine ⟨?_, hinv.featureNamesNodup⟩
      simp only [List.mem_map, not_exists, not_and]
      intro c hc heq
      exact hdup c hc heq
    case resumeOwnersNodup => exact hinv.resumeOwnersNodup
    case assessmentOwners => exact hinv.assessmentOwners
    case resumeOwners => exact hinv.resumeOwners
    case coverLetterOwners => exact hinv.coverLetterOwners
    case ledgerOwners => exact hinv.ledgerOwners
    case paymentOwners => exact hinv.paymentOwners
    case reconcile => exact hinv.reconcile

theorem inv_deleteUser {db db' : DB} {uid : String}
    (h : deleteUser db uid = .ok db') (hinv : Inv db) : Inv db' := by
  unfold deleteUser at h
  split at h
  · exact Except.noConfusion h
  next u hfind =>
    split at h
    · exact Except.noConfusion h
    next hchild =>
      injection h with h
      subst h
      rw [hasChildRows, Bool.not_eq_true, Bool.or_eq_false_iff,
        Bool.or_eq_false_iff, Bool.or_eq_false_iff, Bool.or_eq_false_iff]
        at hchild
      obtain ⟨⟨⟨⟨hA, hR⟩, hC⟩, hT⟩, hP⟩ := hchild
      rw [List.any_eq_false] at hA hR hC hT hP
      simp only [beq_iff_eq] at hA hR hC hT hP
      have hsub : ∀ (g : User → String),
          ((db.users.filter (fun v => !(v.id == uid))).map g).Sublist
            (db.users.map g) :=
        fun g => (List.filter_sublist db.users).map g
      have hmemFilter : ∀ s : String, s ≠ uid → s ∈ userIds db →
          s ∈ (db.users.filter (fun v => !(v.id == uid))).map User.id := by
        intro s hne hs
        rcases List.mem_map.mp hs with ⟨v, hv, rfl⟩
        refine List.mem_map.mpr ⟨v, List.mem_filter.mpr ⟨hv, ?_⟩, rfl⟩
        simpa using hne
      constructor
      case idsNodup => exact hinv.idsNodup.sublist (hsub User.id)
      case clerkNodup => exact hinv.clerkNodup.sublist (hsub User.clerkUserId)
      case emailNodup => exact hinv.emailNodup.sublist (hsub User.email)
      case industriesNodup => exact hinv.industriesNodup
      case razorpayNodup => exact hinv.razorpayNodup
      case featureNamesNodup => exact hinv.featureNamesNodup
      case resumeOwnersNodup => exact hinv.resumeOwnersNodup
      case assessmentOwners =>
        intro a ha
        exact hmemFilter _ (hA a ha) (hinv.assessmentOwners a ha)
      case resumeOwners =>
        intro r hr
        exact hmemFilter _ (hR r hr) (hinv.resumeOwners r hr)
      case coverLetterOwners =>
        intro c hc
        exact hmemFilter _ (hC c hc) (hinv.coverLetterOwners c hc)
      case ledgerOwners =>
        intro t ht
        exact hmemFilter _ (hT t ht) (hinv.ledgerOwners t ht)
      case paymentOwners =>
        intro p hp
        exact hmemFilter _ (hP p hp) (hinv.paymentOwners p hp)
      case reconcile =>
        intro v hv
        exact hinv.reconcile v (List.mem_of_mem_filter hv)

theorem inv_exec {op : Op} {db db' : DB} (h : exec op db = .ok db')
    (hinv : Inv db) : Inv db' := by
  cases op <;> simp only [exec] at h
  case createUser => exact inv_createUser h hinv
  case debitTokens => exact inv_debitTokens h hinv
  case creditTokens => exact inv_creditTokens h hinv
  case recordPayment => exact inv_recordPayment h hinv
  case settlePayment => exact inv_settlePayment h hinv
  case createResume => exact inv_createResume h hinv
  case createAssessment => exact inv_createAssessment h hinv
  case createCoverLetter => exact inv_createCoverLetter h hinv
  case createIndustryInsight => exact inv_createIndustryInsight h hinv
  case updateIndustryInsight => exact inv_updateIndustryInsight h hinv
  case createFeatureCost => exact inv_createFeatureCost h hinv
  case deleteUser => exact inv_deleteUser h hinv

theorem inv_applyOp (op : Op) {db : DB} (hinv : Inv db) :
    Inv (applyOp op db) := by
  unfold applyOp
  cases hexec : exec op db with
  | ok db' => exact inv_exec hexec hinv
  | error e => exact hinv

theorem inv_reachable {db : DB} (h : Reachable db) : Inv db := by
  induction h with
  | empty => exact inv_empty
  | step db op hr ih => exact inv_applyOp op ih

theorem applyOp_of_error {op : Op} {db : DB} {e : RepoError}
    (h : exec op db = .error e) : applyOp op db = db := by
  unfold applyOp
  rw [h]

theorem applyOp_of_ok {op : Op} {db db' : DB}
    (h : exec op db = .ok db') : applyOp op db = db' := by
  unfold applyOp
  rw [h]

theorem debitTokens_found {db : DB} {uid : String} {u : User}
    (amount : Int) (descr : String) (ft : Option String) (txId : String)
    (now : Nat) (hu : findUser db uid = some u) :
    debitTokens db uid amount descr ft txId now =
      if u.tokens < amount then .error .InsufficientBalanceError
      else .ok { db with
        users := db.users.map (fun v =>
          if v.id == uid then
            { v with tokens := v.tokens - amount, updatedAt := now }
          else v)
        tokenTransactions :=
          { id := txId, userId := uid, amount := -amount,
            description := descr, featureType := ft,
            createdAt := now } :: db.tokenTransactions } := by
  unfold debitTokens
  rw [hu]

theorem wDb1_reachable : Reachable wDb1 :=
  Reachable.step dbEmpty wOp1 Reachable.empty

theorem wDb2_reachable : Reachable wDb2 :=
  Reachable.step wDb1 wOp2 wDb1_reachable

theorem wDb3_reachable : Reachable wDb3 :=
  Reachable.step wDb2 wOp3 wDb2_reachable

theorem wDb6_reachable : Reachable wDb6 :=
  Reachable.step wDb2 wOp6 wDb2_reachable

/-- C1: in every reachable state of the repository layer (so with no
out-of-band balance edits), every user's `tokens` balance equals 10000
plus the sum of the amounts of all `TokenTransaction` rows owned by that
user. -/
theorem C1_tokens_reconcile {db : DB} (h : Reachable db) :
    ∀ u ∈ db.users, u.tokens = 10000 + ledgerSum db.tokenTransactions u.id :=
  (inv_reachable h).reconcile

/-- Witness for C1 at a concrete reachable state: after two user
creations and a 2000-token debit, all balances reconcile and the debited
user holds 8000 tokens. -/
theorem C1_tokens_reconcile_witness :
    Reachable wDb3 ∧
    (∀ u ∈ wDb3.users,
      u.tokens = 10000 + ledgerSum wDb3.tokenTransactions u.id) ∧
    (findUser wDb3 "u1").map User.tokens = some 8000 :=
  ⟨wDb3_reachable, C1_tokens_reconcile wDb3_reachable, by decide⟩

/-- C2: for an existing user, a debit of more than the current balance
fails with `InsufficientBalanceError` and leaves balance and ledger (the
whole state) unchanged; any other debit decrements the balance by
`amount` and appends exactly one `TokenTransaction` with
`amount = -amount`, leaving the other tables untouched. -/
theorem C2_debitTokens_contract {db : DB} {uid : String} {amount : Int}
    {descr : String} {ft : Option String} {txId : String} {now : Nat}
    {u : User} (hu : findUser db uid = some u) :
    (amount > u.tokens →
      debitTokens db uid amount descr ft txId now =
        .error .InsufficientBalanceError ∧
      applyOp (.debitTokens uid amount descr ft txId now) db = db)
    ∧ (amount ≤ u.tokens → ∃ db',
      debitTokens db uid amount descr ft txId now = .ok db' ∧
      findUser db' uid =
        some { u with tokens := u.tokens - amount, updatedAt := now } ∧
      db'.tokenTransactions =
        { id := txId, userId := uid, amount := -amount, description := descr,
          featureType := ft, createdAt := now } :: db.tokenTransactions ∧
      db'.assessments = db.assessments ∧ db'.resumes = db.resumes ∧
      db'.coverLetters = db.coverLetters ∧
      db'.industryInsights = db.industryInsights ∧
      db'.payments = db.payments ∧ db'.featureCosts = db.featureCosts) := by
  constructor
  · intro hgt
    have herr : debitTokens db uid amount descr ft txId now =
        .error .InsufficientBalanceError := by
      rw [debitTokens_found amount descr ft txId now hu, if_pos hgt]
    exact ⟨herr, applyOp_of_error herr⟩
  · intro hle
    have hok := debitTokens_found amount descr ft txId now hu
    rw [if_neg (not_lt.mpr hle)] at hok
    refine ⟨_, hok, ?_, rfl, rfl, rfl, rfl, rfl, rfl, rfl⟩
    have hpres : ∀ v : User,
        ((if v.id == uid then
          { v with tokens := v.tokens - amount, updatedAt := now }
        else v).id == uid) = (v.id == uid) := by
      intro v
      split <;> rfl
    unfold findUser
    show List.find? (fun v => v.id == uid)
        (db.users.map (fun v =>
          if v.id == uid then
            { v with tokens := v.tokens - amount, updatedAt := now }
          else v)) = _
    rw [find?_map_comm _ _ _ hpres]
    unfold findUser at hu
    rw [hu]
    have hbeq : (u.id == uid) = true := by
      simpa using List.find?_some hu
    show some (if (u.id == uid) = true then
      { u with tokens := u.tokens - amount, updatedAt := now } else u) = _
    rw [if_pos hbeq]

/-- Witness for C2: in the two-user state, debiting 20000 from `u1`
(whose balance is 10000) fails with `InsufficientBalanceError` and
leaves the state unchanged. -/
theorem C2_debitTokens_witness :
    findUser wDb2 "u1" = some wU1 ∧ (20000 : Int) > wU1.tokens ∧
    debitTokens wDb2 "u1" 20000 "d" none "t9" 9 =
      .error .InsufficientBalanceError ∧
    applyOp (.debitTokens "u1" 20000 "d" none "t9" 9) wDb2 = wDb2 := by
  have hu : findUser wDb2 "u1" = some wU1 := by decide
  have h : debitTokens wDb2 "u1" 20000 "d" none "t9" 9 =
        .error .InsufficientBalanceError ∧
      applyOp (.debitTokens "u1" 20000 "d" none "t9" 9) wDb2 = wDb2 :=
    (C2_debitTokens_contract hu).1 (by decide)
  exact ⟨hu, by decide, h.1, h.2⟩

theorem createResume_found {db : DB} {uid : String} {u : User}
    (id content : String) (ats : Rat) (fb : String) (now : Nat)
    (hu : findUser db uid = some u) :
    createResume db id uid content ats fb now =
      if db.resumes.any (fun r => r.userId == uid) then
        .error .ConflictError
      else
        .ok { db with resumes :=
          { id := id, userId := uid, content := content, atsScore := ats,
            feedback := fb, createdAt := now, updatedAt := now }
            :: db.resumes } := by
  unfold createResume
  rw [hu]

theorem deleteUser_found {db : DB} {uid : String} {u : User}
    (hu : findUser db uid = some u) :
    deleteUser db uid =
      if hasChildRows db uid then .error .ConflictError
      else .ok { db with users := db.users.filter (fun v => !(v.id == uid)) } := by
  unfold deleteUser
  rw [hu]

/-- C3: in every reachable state the unique columns of `schema.prisma`
(`clerkUserId`, `email`, `industry`, `razorpayId`, `featureName`) hold
pairwise distinct values, and a create that would duplicate one of them
fails with `ConflictError` and leaves the state (hence the existing row)
unchanged. -/
theorem C3_unique_constraints {db : DB} (h : Reachable db) :
    ((db.users.map User.clerkUserId).Nodup ∧
     (db.users.map User.email).Nodup ∧
     (db.industryInsights.map IndustryInsight.industry).Nodup ∧
     (db.payments.map Payment.razorpayId).Nodup ∧
     (db.featureCosts.map FeatureCost.featureName).Nodup)
    ∧ (∀ id c e n i ind b ex sk now,
        (∃ u ∈ db.users, u.clerkUserId = c ∨ u.email = e) →
        createUser db id c e n i ind b ex sk now = .error .ConflictError ∧
        applyOp (.createUser id c e n i ind b ex sk now) db = db)
    ∧ (∀ id ind sr g dl tsk mo kt rs now,
        (∃ s ∈ db.industryInsights, s.industry = ind) →
        createIndustryInsight db id ind sr g dl tsk mo kt rs now =
          .error .ConflictError ∧
        applyOp (.createIndustryInsight id ind sr g dl tsk mo kt rs now) db
          = db)
    ∧ (∀ id uid rid amt cur tok now,
        (∃ p ∈ db.payments, p.razorpayId = rid) →
        recordPayment db id uid rid amt cur tok now = .error .ConflictError ∧
        applyOp (.recordPayment id uid rid amt cur tok now) db = db)
    ∧ (∀ id fn tc d,
        (∃ fc ∈ db.featureCosts, fc.featureName = fn) →
        createFeatureCost db id fn tc d = .error .ConflictError ∧
        applyOp (.createFeatureCost id fn tc d) db = db) := by
  have hinv := inv_reachable h
  refine ⟨⟨hinv.clerkNodup, hinv.emailNodup, hinv.industriesNodup,
    hinv.razorpayNodup, hinv.featureNamesNodup⟩, ?_, ?_, ?_, ?_⟩
  · intro id c e n i ind b ex sk now hdup
    obtain ⟨u, hu, hor⟩ := hdup
    have hany : (db.users.any (fun v =>
        v.id == id || v.clerkUserId == c || v.email == e)) = true := by
      rw [List.any_eq_true]
      refine ⟨u, hu, ?_⟩
      rcases hor with h1 | h1 <;> simp [h1]
    have herr : createUser db id c e n i ind b ex sk now =
        .error .ConflictError := by
      unfold createUser
      rw [if_pos hany]
    have hexec : exec (.createUser id c e n i ind b ex sk now) db =
        .error .ConflictError := herr
    exact ⟨herr, applyOp_of_error hexec⟩
  · intro id ind sr g dl tsk mo kt rs now hdup
    obtain ⟨s, hs, hind⟩ := hdup
    have hany : (db.industryInsights.any (fun v =>
        v.industry == ind)) = true := by
      rw [List.any_eq_true]
      exact ⟨s, hs, by simp [hind]⟩
    have herr : createIndustryInsight db id ind sr g dl tsk mo kt rs now =
        .error .ConflictError := by
      unfold createIndustryInsight
      rw [if_pos hany]
    have hexec : exec (.createIndustryInsight id ind sr g dl tsk mo kt rs now)
        db = .error .ConflictError := herr
    exact ⟨herr, applyOp_of_error hexec⟩
  · intro id uid rid amt cur tok now hdup
    obtain ⟨p, hp, hrid⟩ := hdup
    have hany : (db.payments.any (fun v => v.razorpayId == rid)) = true := by
      rw [List.any_eq_true]
      exact ⟨p, hp, by simp [hrid]⟩
    have herr : recordPayment db id uid rid amt cur tok now =
        .error .ConflictError := by
      unfold recordPayment
      rw [if_pos hany]
    have hexec : exec (.recordPayment id uid rid amt cur tok now) db =
        .error .ConflictError := herr
    exact ⟨herr, applyOp_of_error hexec⟩
  · intro id fn tc d hdup
    obtain ⟨fc, hfc, hfn⟩ := hdup
    have hany : (db.featureCosts.any (fun v => v.featureName == fn)) = true := by
      rw [List.any_eq_true]
      exact ⟨fc, hfc, by simp [hfn]⟩
    have herr : createFeatureCost db id fn tc d = .error .ConflictError := by
      unfold createFeatureCost
      rw [if_pos hany]
    have hexec : exec (.createFeatureCost id fn tc d) db =
        .error .ConflictError := herr
    exact ⟨herr, applyOp_of_error hexec⟩

/-- Witness for C3: in the two-user state, creating a third user with
the email of `u1` fails with `ConflictError` and leaves the state
unchanged. -/
theorem C3_unique_constraints_witness :
    Reachable wDb2 ∧
    createUser wDb2 "u9" "clerk9" "u1@mail.test" none none none none none []
      9 = .error .ConflictError ∧
    applyOp (.createUser "u9" "clerk9" "u1@mail.test" none none none none
      none [] 9) wDb2 = wDb2 := by
  have h : createUser wDb2 "u9" "clerk9" "u1@mail.test" none none none none
        none [] 9 = .error .ConflictError ∧
      applyOp (.createUser "u9" "clerk9" "u1@mail.test" none none none none
        none [] 9) wDb2 = wDb2 :=
    (C3_unique_constraints wDb2_reachable).2.1 "u9" "clerk9" "u1@mail.test"
      none none none none none [] 9 (by decide)
  exact ⟨wDb2_reachable, h.1, h.2⟩

/-- C4: settling the same payment (identified by its gateway id) to
COMPLETED a second time is an accepted no-op: it returns the state of
the first settlement unchanged, so the user is credited exactly once. -/
theorem C4_settlePayment_idempotent {db db' : DB} {rid txId txId2 : String}
    {now now2 : Nat}
    (h : settlePayment db rid .COMPLETED txId now = .ok db') :
    settlePayment db' rid .COMPLETED txId2 now2 = .ok db' ∧
    applyOp (.settlePayment rid .COMPLETED txId2 now2) db' = db' := by
  have main : settlePayment db' rid .COMPLETED txId2 now2 = .ok db' := by
    unfold settlePayment at h
    split at h
    · exact Except.noConfusion h
    next p hfind =>
      have hpred : (p.razorpayId == rid) = true := by
        simpa using List.find?_some hfind
      split at h
      next hpend =>
        split at h
        next hC =>
          injection h with h
          have hpay : db'.payments = db.payments.map (fun q =>
              if q.razorpayId == rid then
                { q with status := PaymentStatus.COMPLETED, updatedAt := now }
              else q) := by
            rw [← h]
          have hg : ∀ q : Payment,
              ((if q.razorpayId == rid then
                { q with status := PaymentStatus.COMPLETED, updatedAt := now }
              else q).razorpayId == rid) = (q.razorpayId == rid) := by
            intro q
            split <;> rfl
          have hfind2 : db'.payments.find? (fun q => q.razorpayId == rid) =
              some
                { p with
                  status := PaymentStatus.COMPLETED, updatedAt := now } := by
            rw [hpay, find?_map_comm _ _ _ hg, hfind]
            show some (if (p.razorpayId == rid) = true then
                { p with
                  status := PaymentStatus.COMPLETED, updatedAt := now }
              else p) = _
            rw [if_pos hpred]
          unfold settlePayment
          rw [hfind2]
          rfl
        next hC => exact absurd rfl hC
      next hpend =>
        split at h
        next heq =>
          injection h with h
          subst h
          unfold settlePayment
          rw [hfind]
          simp [hpend, heq]
        · exact Except.noConfusion h
  exact ⟨main, applyOp_of_ok main⟩

/-- Witness for C4: the concrete pending payment `rzp1` is settled to
COMPLETED once, and a second settlement returns the settled state
unchanged. -/
theorem C4_settlePayment_idempotent_witness :
    settlePayment wDb4 "rzp1" .COMPLETED "t2" 4 = .ok wDb5 ∧
    settlePayment wDb5 "rzp1" .COMPLETED "t3" 5 = .ok wDb5 ∧
    applyOp (.settlePayment "rzp1" .COMPLETED "t3" 5) wDb5 = wDb5 := by
  have h1 : settlePayment wDb4 "rzp1" .COMPLETED "t2" 4 = .ok wDb5 := rfl
  have h : settlePayment wDb5 "rzp1" .COMPLETED "t3" 5 = .ok wDb5 ∧
      applyOp (.settlePayment "rzp1" .COMPLETED "t3" 5) wDb5 = wDb5 :=
    C4_settlePayment_idempotent h1
  exact ⟨h1, h.1, h.2⟩

/-- C5: in every reachable state no two resumes share an owner (each
user owns at most one resume); creating a resume for a user that already
has one fails with `ConflictError` and leaves the state unchanged, while
a user without a resume can still create one. -/
theorem C5_resume_unique {db : DB} (h : Reachable db) :
    (db.resumes.map Resume.userId).Nodup
    ∧ (∀ id uid content ats fb now, (∃ r ∈ db.resumes, r.userId = uid) →
        createResume db id uid content ats fb now = .error .ConflictError ∧
        applyOp (.createResume id uid content ats fb now) db = db)
    ∧ (∀ id uid content ats fb now u, findUser db uid = some u →
        (∀ r ∈ db.resumes, r.userId ≠ uid) →
        ∃ db', createResume db id uid content ats fb now = .ok db' ∧
          ∃ r ∈ db'.resumes, r.userId = uid) := by
  have hinv := inv_reachable h
  refine ⟨hinv.resumeOwnersNodup, ?_, ?_⟩
  · intro id uid content ats fb now hdup
    obtain ⟨r, hr, hruid⟩ := hdup
    have huid : uid ∈ userIds db := hruid ▸ hinv.resumeOwners r hr
    obtain ⟨v, hv, hvid⟩ := List.mem_map.mp huid
    have hfindsome : (db.users.find? (fun w => w.id == uid)).isSome := by
      rw [List.find?_isSome]
      exact ⟨v, hv, by simp [hvid]⟩
    obtain ⟨u, hu⟩ := Option.isSome_iff_exists.mp hfindsome
    have hu' : findUser db uid = some u := hu
    have hany : (db.resumes.any (fun s => s.userId == uid)) = true := by
      rw [List.any_eq_true]
      exact ⟨r, hr, by simp [hruid]⟩
    have herr : createResume db id uid content ats fb now =
        .error .ConflictError := by
      rw [createResume_found id content ats fb now hu', if_pos hany]
    have hexec : exec (.createResume id uid content ats fb now) db =
        .error .ConflictError := herr
    exact ⟨herr, applyOp_of_error hexec⟩
  · intro id uid content ats fb now u hu hnone
    have hany : (db.resumes.any (fun s => s.userId == uid)) = false := by
      rw [List.any_eq_false]
      intro r hr
      simpa using hnone r hr
    refine ⟨{ db with resumes :=
      { id := id, userId := uid, content := content, atsScore := ats,
        feedback := fb, createdAt := now, updatedAt := now }
        :: db.resumes }, ?_, ?_⟩
    · rw [createResume_found id content ats fb now hu,
        if_neg (by simp [hany])]
    · exact ⟨_, List.mem_cons_self _ _, rfl⟩

/-- Witness for C5: in the state where `u1` owns a resume, a second
resume for `u1` is rejected with `ConflictError` and the state is
unchanged. -/
theorem C5_resume_unique_witness :
    Reachable wDb6 ∧
    createResume wDb6 "r2" "u1" "other" 10 "fb2" 9 = .error .ConflictError ∧
    applyOp (.createResume "r2" "u1" "other" 10 "fb2" 9) wDb6 = wDb6 := by
  have h : createResume wDb6 "r2" "u1" "other" 10 "fb2" 9 =
        .error .ConflictError ∧
      applyOp (.createResume "r2" "u1" "other" 10 "fb2" 9) wDb6 = wDb6 :=
    (C5_resume_unique wDb6_reachable).2.1 "r2" "u1" "other" 10 "fb2" 9
      (by decide)
  exact ⟨wDb6_reachable, h.1, h.2⟩

/-- C6: a user created through the repository layer starts with the
schema default of 10000 tokens, and a payment recorded without an
explicit currency gets the schema defaults `currency = "INR"` and
`status = PENDING`. -/
theorem C6_defaults {db1 db1' db2 db2' : DB} {id c e : String}
    {n i ind b : Option String} {ex : Option Int} {sk : List String}
    {now : Nat} {pid uid rid : String} {amt : Rat} {tok : Int} {now2 : Nat}
    (h1 : createUser db1 id c e n i ind b ex sk now = .ok db1')
    (h2 : recordPayment db2 pid uid rid amt none tok now2 = .ok db2') :
    (∃ u ∈ db1'.users, u.id = id ∧ u.tokens = 10000) ∧
    (∃ p ∈ db2'.payments, p.razorpayId = rid ∧ p.currency = "INR" ∧
      p.status = .PENDING) := by
  constructor
  · unfold createUser at h1
    split at h1
    · exact Except.noConfusion h1
    split at h1
    · exact Except.noConfusion h1
    injection h1 with h1
    subst h1
    exact ⟨_, List.mem_cons_self _ _, rfl, rfl⟩
  · unfold recordPayment at h2
    split at h2
    · exact Except.noConfusion h2
    split at h2
    · exact Except.noConfusion h2
    injection h2 with h2
    subst h2
    exact ⟨_, List.mem_cons_self _ _, rfl, rfl, rfl⟩

/-- Witness for C6: the concrete user `u1` is created with 10000 tokens,
and the concrete payment `rzp1`, recorded without an explicit currency,
carries currency `INR` and status `PENDING`. -/
theorem C6_defaults_witness :
    createUser dbEmpty "u1" "clerk1" "u1@mail.test" none none none none none
      [] 0 = .ok wDb1 ∧
    recordPayment wDb2 "p1" "u1" "rzp1" 500 none 300 3 = .ok wDb4 ∧
    (∃ u ∈ wDb1.users, u.id = "u1" ∧ u.tokens = 10000) ∧
    (∃ p ∈ wDb4.payments, p.razorpayId = "rzp1" ∧ p.currency = "INR" ∧
      p.status = .PENDING) := by
  have h1 : createUser dbEmpty "u1" "clerk1" "u1@mail.test" none none none
      none none [] 0 = .ok wDb1 := rfl
  have h2 : recordPayment wDb2 "p1" "u1" "rzp1" 500 none 300 3 = .ok wDb4 :=
    rfl
  have h := C6_defaults h1 h2
  exact ⟨h1, h2, h.1, h.2⟩

/-- C9: `schema.prisma` declares no referential action on any relation,
so the store's restricting default applies: deleting a user that still
owns child rows (assessments, resumes, cover letters, token
transactions or payments) is rejected and leaves the state unchanged;
accordingly, in every reachable state every child row's `userId`
references an existing user. -/
theorem C9_restrict_and_no_orphans {db : DB} (h : Reachable db) :
    (∀ m ∈ PrismaDecl.prismaSchema, ∀ r ∈ m.relationFields,
      r.onDelete = none ∧ r.onUpdate = none)
    ∧ (∀ uid u, findUser db uid = some u → hasChildRows db uid = true →
        deleteUser db uid = .error .ConflictError ∧
        applyOp (.deleteUser uid) db = db)
    ∧ (∀ a ∈ db.assessments, a.userId ∈ userIds db)
    ∧ (∀ r ∈ db.resumes, r.userId ∈ userIds db)
    ∧ (∀ c ∈ db.coverLetters, c.userId ∈ userIds db)
    ∧ (∀ t ∈ db.tokenTransactions, t.userId ∈ userIds db)
    ∧ (∀ p ∈ db.payments, p.userId ∈ userIds db) := by
  have hinv := inv_reachable h
  refine ⟨by decide, ?_, hinv.assessmentOwners, hinv.resumeOwners,
    hinv.coverLetterOwners, hinv.ledgerOwners, hinv.paymentOwners⟩
  intro uid u hu hchild
  have herr : deleteUser db uid = .error .ConflictError := by
    rw [deleteUser_found hu, if_pos hchild]
  have hexec : exec (.deleteUser uid) db = .error .ConflictError := herr
  exact ⟨herr, applyOp_of_error hexec⟩

/-- Witness for C9: in the state where `u1` owns a ledger row, deleting
`u1` is rejected with `ConflictError` and the state is unchanged. -/
theorem C9_restrict_and_no_orphans_witness :
    Reachable wDb3 ∧ hasChildRows wDb3 "u1" = true ∧
    deleteUser wDb3 "u1" = .error .ConflictError ∧
    applyOp (.deleteUser "u1") wDb3 = wDb3 := by
  obtain ⟨u, hu⟩ : ∃ u, findUser wDb3 "u1" = some u := ⟨_, rfl⟩
  have hch : hasChildRows wDb3 "u1" = true := by decide
  have h := (C9_restrict_and_no_orphans wDb3_reachable).2.1 "u1" u hu hch
  exact ⟨wDb3_reachable, hch, h.1, h.2⟩

/-- C10: a mutation of an `IndustryInsight` row leaves `lastUpdated`
unchanged (its `@default(now())` applies only at insert) and overwrites
`nextUpdate` with the time of that very mutation (`@updatedAt`), so
`nextUpdate` never holds a store-assigned future schedule time; at
creation both fields are set to the insertion time. -/
theorem C10_insight_timestamps {db db' dbc dbc' : DB} {industry : String}
    {sr : List String} {g : Rat} {dl : DemandLevel} {tsk : List String}
    {mo : MarketOutlook} {kt rs : List String} {now : Nat}
    {cid cind : String} {csr : List String} {cg : Rat} {cdl : DemandLevel}
    {ctsk : List String} {cmo : MarketOutlook} {ckt crs : List String}
    {cnow : Nat}
    (h : updateIndustryInsight db industry sr g dl tsk mo kt rs now = .ok db')
    (hc : createIndustryInsight dbc cid cind csr cg cdl ctsk cmo ckt crs cnow
      = .ok dbc') :
    (∀ s ∈ db.industryInsights, s.industry = industry →
      ∃ s' ∈ db'.industryInsights, s'.industry = industry ∧
        s'.lastUpdated = s.lastUpdated ∧ s'.nextUpdate = now)
    ∧ (∀ s' ∈ db'.industryInsights, ∃ s ∈ db.industryInsights,
        s'.lastUpdated = s.lastUpdated)
    ∧ (∃ s ∈ dbc'.industryInsights, s.industry = cind ∧
        s.lastUpdated = cnow ∧ s.nextUpdate = cnow) := by
  unfold updateIndustryInsight at h
  split at h
  case isTrue hany =>
    injection h with h
    have hins : db'.industryInsights = db.industryInsights.map (fun s =>
        if s.industry == industry then
          { s with
            salaryRanges := sr, growthRate := g, demandLevel := dl,
            topSkills := tsk, marketOutlook := mo, keyTrends := kt,
            recommendedSkills := rs, nextUpdate := now }
        else s) := by
      rw [← h]
    refine ⟨?_, ?_, ?_⟩
    · intro s hs hsind
      have hcond : (s.industry == industry) = true := by simp [hsind]
      rw [hins]
      refine ⟨_, List.mem_map.mpr ⟨s, hs, rfl⟩, ?_, ?_, ?_⟩
      · rw [if_pos hcond]
        exact hsind
      · rw [if_pos hcond]
      · rw [if_pos hcond]
    · intro s' hs'
      rw [hins] at hs'
      obtain ⟨s, hs, rfl⟩ := List.mem_map.mp hs'
      refine ⟨s, hs, ?_⟩
      split <;> rfl
    · unfold createIndustryInsight at hc
      split at hc
      · exact Except.noConfusion hc
      injection hc with hc
      subst hc
      exact ⟨_, List.mem_cons_self _ _, rfl, rfl, rfl⟩
  case isFalse => exact Except.noConfusion h

/-- Witness for C10: the `Tech` insight is created at time 6 and
refreshed at time 7; after the refresh `lastUpdated` is still 6 while
`nextUpdate` is 7, the time of the mutation. -/
theorem C10_insight_timestamps_witness :
    updateIndustryInsight wDbI1 "Tech" [] 6 .LOW [] .NEUTRAL [] [] 7 =
      .ok wDbI2 ∧
    createIndustryInsight dbEmpty "i1" "Tech" [] 5 .HIGH [] .POSITIVE [] [] 6
      = .ok wDbI1 ∧
    (∀ s' ∈ wDbI2.industryInsights, ∃ s ∈ wDbI1.industryInsights,
      s'.lastUpdated = s.lastUpdated) ∧
    wDbI2.industryInsights.map IndustryInsight.lastUpdated = [6] ∧
    wDbI2.industryInsights.map IndustryInsight.nextUpdate = [7] := by
  have h1 : updateIndustryInsight wDbI1 "Tech" [] 6 .LOW [] .NEUTRAL [] [] 7
      = .ok wDbI2 := rfl
  have h2 : createIndustryInsight dbEmpty "i1" "Tech" [] 5 .HIGH []
      .POSITIVE [] [] 6 = .ok wDbI1 := rfl
  exact ⟨h1, h2, (C10_insight_timestamps h1 h2).2.1, by decide, by decide⟩

end CareerDB

namespace PrismaDecl

/-- C7 counterexample: the claim that every entity type carries both a
creation timestamp and an auto-refreshed update timestamp is false on
the schema: `FeatureCost` declares neither column, so the universal
statement over all models fails. -/
theorem C7_timestamps_counterexample :
    (prismaSchema.all (fun m =>
      hasCreatedAtColumn m && hasUpdatedAtColumn m)) = false ∧
    featureCostModel ∈ prismaSchema ∧
    hasCreatedAtColumn featureCostModel = false ∧
    hasUpdatedAtColumn featureCostModel = false := by decide

/-- C7 amended: every model of `schema.prisma` except `TokenTransaction`
and `FeatureCost` carries a `DateTime` column defaulting to the insert
time and a `DateTime` column refreshed on every mutation;
`TokenTransaction` carries only the creation timestamp and `FeatureCost`
carries neither. -/
theorem C7_timestamps_amended :
    (∀ m ∈ prismaSchema, m.mname ≠ "TokenTransaction" →
      m.mname ≠ "FeatureCost" →
      hasCreatedAtColumn m = true ∧ hasUpdatedAtColumn m = true)
    ∧ hasCreatedAtColumn tokenTransactionModel = true
    ∧ hasUpdatedAtColumn tokenTransactionModel = false
    ∧ hasCreatedAtColumn featureCostModel = false
    ∧ hasUpdatedAtColumn featureCostModel = false := by decide

/-- Witness for the amended C7 at the `User` model: it is in the schema,
is neither of the two exceptions, and carries both timestamp columns. -/
theorem C7_timestamps_amended_witness :
    userModel ∈ prismaSchema ∧ userModel.mname ≠ "TokenTransaction" ∧
    userModel.mname ≠ "FeatureCost" ∧
    (hasCreatedAtColumn userModel = true ∧
      hasUpdatedAtColumn userModel = true) :=
  ⟨by decide, by decide, by decide,
    C7_timestamps_amended.1 userModel (by decide) (by decide) (by decide)⟩

end PrismaDecl

namespace Html2PdfDecl

/-- C8: the declared PDF-export interface has a configuration object
covering margins, output filename, image quality, canvas scale and page
format/orientation/unit, exactly two chained entry points (`set` for the
configuration and `from` for the rendering target, each returning the
builder), and an asynchronous `save` returning a promise with no
value. -/
theorem C8_html2pdf_shape :
    optionsHasProp "margin" = true ∧ optionsHasProp "filename" = true ∧
    optionsObjHasMember "image" "quality" = true ∧
    optionsObjHasMember "image" "type" = true ∧
    optionsObjHasMember "html2canvas" "scale" = true ∧
    optionsObjHasMember "jsPDF" "format" = true ∧
    optionsObjHasMember "jsPDF" "orientation" = true ∧
    optionsObjHasMember "jsPDF" "unit" = true ∧
    (html2pdfInterfaceMethods.filter (fun m => m.ret == "Html2Pdf")).map
      TSMethod.mname = ["set", "from"] ∧
    (html2pdfInterfaceMethods.filter
      (fun m => m.ret == "Html2Pdf")).length = 2 ∧
    html2pdfInterfaceMethods.find? (fun m => m.mname == "set") =
      some ⟨"set", [("options", "Options")], "Html2Pdf"⟩ ∧
    html2pdfInterfaceMethods.find? (fun m => m.mname == "from") =
      some ⟨"from", [("element", "HTMLElement")], "Html2Pdf"⟩ ∧
    html2pdfInterfaceMethods.find? (fun m => m.mname == "save") =
      some ⟨"save", [], "Promise<void>"⟩ ∧
    html2pdfModuleFn.ret = "Html2Pdf" := by decide

end Html2PdfDecl
